import Mathlib

/-!
# Verification of the waveline-bg generation pipeline

Shallow embedding of `src/waveline-bg.js`: the Mulberry32 PRNG, the
sine-superposition scalar-field generator, the bias/threshold planner,
the contour-to-path renderer and the SVG document composer, together
with proofs of the specification claims about them.

All 32-bit JavaScript integer arithmetic is modelled on `ℕ` with
explicit `% 2^32` wraparound.  Real-valued quantities computed with
`Math.sin` / `Math.pow` are modelled on `ℝ`; quantities that only ever
flow through exact arithmetic (option defaulting, styling interpolation,
path coordinates) are modelled on `ℚ` to keep them executable.
-/

/-! ## Mulberry32 PRNG (`mulberry32`, waveline-bg.js lines 24-31) -/

/-- One draw of the Mulberry32 generator.  Models the closure body
`var t = seed += 0x6D2B79F5; t = Math.imul(t ^ t >>> 15, t | 1);
t ^= t + Math.imul(t ^ t >>> 7, t | 61);
return ((t ^ t >>> 14) >>> 0) / 4294967296;`
on the 32-bit unsigned residues.  Returns (output numerator, new state). -/
def mulberry32Step (s : ℕ) : ℕ × ℕ :=
  let s' := (s + 0x6D2B79F5) % 4294967296
  let t1 := ((s' ^^^ (s' >>> 15)) * (s' ||| 1)) % 4294967296
  let t2 := t1 ^^^ ((t1 + ((t1 ^^^ (t1 >>> 7)) * (t1 ||| 61)) % 4294967296) % 4294967296)
  (t2 ^^^ (t2 >>> 14), s')

/-- The PRNG state after `n` draws, starting from `seed >>> 0`. -/
def mulberry32State (seed : ℕ) : ℕ → ℕ
  | 0 => seed % 4294967296
  | n + 1 => (mulberry32Step (mulberry32State seed n)).2

/-- The numerator of the `n`-th draw (0-indexed): an integer in `[0, 2^32)`. -/
def mulberry32Out (seed n : ℕ) : ℕ :=
  (mulberry32Step (mulberry32State seed n)).1

/-- The `n`-th random float drawn from the stream: `out / 2^32`. -/
noncomputable def mulberry32Val (seed n : ℕ) : ℝ :=
  (mulberry32Out seed n : ℝ) / 4294967296

/-! ## Scalar field generator (`generateField`, waveline-bg.js lines 49-71) -/

/-- The phase drawn for wave `n` (`rnd() * Math.PI * 2`), spec-side view of
the first three stream draws. -/
noncomputable def phaseOf (seed n : ℕ) : ℝ :=
  mulberry32Val seed n * Real.pi * 2

/-- Scalar-field generator.  Translation of `generateField`: seed the PRNG
with `seed >>> 0`, draw the three phases in order, normalize the
frequency, then fill the row-major array with the three-layer sine
superposition (outer loop over rows `j`, inner over columns `i`). -/
noncomputable def generateField (gridW gridH : ℕ) (freq amplitude : ℝ) (seed : ℕ) : List ℝ :=
  let r1 := mulberry32Step (seed % 4294967296)
  let r2 := mulberry32Step r1.2
  let r3 := mulberry32Step r2.2
  let phase1 := (r1.1 : ℝ) / 4294967296 * Real.pi * 2
  let phase2 := (r2.1 : ℝ) / 4294967296 * Real.pi * 2
  let phase3 := (r3.1 : ℝ) / 4294967296 * Real.pi * 2
  let f := freq / 10
  (List.range gridH).flatMap (fun (j : ℕ) =>
    (List.range gridW).map (fun (i : ℕ) =>
      let nx := (i : ℝ) / gridW - 0.5
      let ny := (j : ℝ) / gridH - 0.5
      let v1 := Real.sin (nx * Real.pi * 2 * f + phase1)
              + Real.sin (ny * Real.pi * 2 * f * 0.9 + phase2)
      let v2 := 0.6 * Real.sin ((nx + ny) * Real.pi * 2 * f * 0.7 + phase3)
      let v3 := 0.4 * Real.sin ((nx - ny) * Real.pi * 2 * f * 0.5 - phase2)
      (v1 + v2 + v3) * amplitude))

/-- The value pushed for cell `(i, j)` inside `generateField`'s loop body
(same phase chain as `generateField`; definitionally equal to it). -/
noncomputable def fieldCell (gridW gridH : ℕ) (freq amplitude : ℝ) (seed : ℕ) (i j : ℕ) : ℝ :=
  let r1 := mulberry32Step (seed % 4294967296)
  let r2 := mulberry32Step r1.2
  let r3 := mulberry32Step r2.2
  let phase1 := (r1.1 : ℝ) / 4294967296 * Real.pi * 2
  let phase2 := (r2.1 : ℝ) / 4294967296 * Real.pi * 2
  let phase3 := (r3.1 : ℝ) / 4294967296 * Real.pi * 2
  let f := freq / 10
  let nx := (i : ℝ) / gridW - 0.5
  let ny := (j : ℝ) / gridH - 0.5
  let v1 := Real.sin (nx * Real.pi * 2 * f + phase1)
          + Real.sin (ny * Real.pi * 2 * f * 0.9 + phase2)
  let v2 := 0.6 * Real.sin ((nx + ny) * Real.pi * 2 * f * 0.7 + phase3)
  let v3 := 0.4 * Real.sin ((nx - ny) * Real.pi * 2 * f * 0.5 - phase2)
  (v1 + v2 + v3) * amplitude

/-! ## Bias curve and threshold planner
(`applyBias`, lines 115-119; levels loop in `generateWavelineSvg`, lines 181-185) -/

/-- Power-curve bias, translation of `applyBias`:
`if (bias === 0) return u; if (bias > 0) return Math.pow(u, 1 + bias);
return 1 - Math.pow(1 - u, 1 - bias);`. -/
noncomputable def applyBias (u bias : ℝ) : ℝ :=
  if bias = 0 then u
  else if 0 < bias then u ^ (1 + bias)
  else 1 - (1 - u) ^ (1 - bias)

/-- `Math.min.apply(null, field)`: minimum of a value list (0 on the empty list). -/
def listMin : List ℝ → ℝ
  | [] => 0
  | x :: xs => xs.foldl min x

/-- `Math.max.apply(null, field)`: maximum of a value list (0 on the empty list). -/
def listMax : List ℝ → ℝ
  | [] => 0
  | x :: xs => xs.foldl max x

/-- The `levels` loop of `generateWavelineSvg` (lines 181-185):
`for (k = 1; k <= density; k++) levels.push(min + applyBias(k/(density+1), bias)*(max-min))`. -/
noncomputable def levelsFor (minV maxV : ℝ) (density : ℕ) (bias : ℝ) : List ℝ :=
  (List.range density).map (fun (k : ℕ) =>
    minV + applyBias (((k : ℝ) + 1) / ((density : ℝ) + 1)) bias * (maxV - minV))

/-- The threshold planner: levels spread over the field's min/max range. -/
noncomputable def planThresholds (field : List ℝ) (density : ℕ) (bias : ℝ) : List ℝ :=
  levelsFor (listMin field) (listMax field) density bias

/-- The bias curve as the specification states it: identity at `bias = 0`,
`u ^ (1 + bias)` for positive bias, `1 - (1 - u) ^ (1 - bias)` for
negative bias. -/
noncomputable def biasCurveSpec (u bias : ℝ) : ℝ :=
  if bias = 0 then u
  else if 0 < bias then u ^ (1 + bias)
  else 1 - (1 - u) ^ (1 - bias)

/-! ## Option defaulting (`generateWavelineSvg`, lines 132-157)

Numeric options are modelled on `ℚ` (grid sizes, density and seed on
`ℕ`); `none` models an absent (`undefined`) option.  `orZero` models the
JavaScript `options.x || default` idiom, under which an explicit `0`
(or `''` for strings) is falsy and replaced by the default; `getD`
models `options.x !== undefined ? options.x : default`. -/

structure Options where
  width : Option ℚ := none
  height : Option ℚ := none
  gridWidth : Option ℕ := none
  gridHeight : Option ℕ := none
  density : Option ℕ := none
  freq : Option ℚ := none
  amplitude : Option ℚ := none
  strokeMin : Option ℚ := none
  strokeMax : Option ℚ := none
  opacityMin : Option ℚ := none
  opacityMax : Option ℚ := none
  bias : Option ℚ := none
  seed : Option ℕ := none
  strokeColor : Option String := none
  backgroundColor : Option String := none

/-- `v || d` on a rational-valued option: `0` is falsy. -/
def orZero (v : Option ℚ) (d : ℚ) : ℚ :=
  match v with
  | none => d
  | some x => if x = 0 then d else x

/-- `v || d` on a natural-valued option: `0` is falsy. -/
def orZeroNat (v : Option ℕ) (d : ℕ) : ℕ :=
  match v with
  | none => d
  | some x => if x = 0 then d else x

/-- `v || d` on a string-valued option: the empty string is falsy. -/
def orEmpty (v : Option String) (d : String) : String :=
  match v with
  | none => d
  | some s => if s = "" then d else s

/-- The fully defaulted configuration (lines 136-157). -/
structure Config where
  width : ℚ
  height : ℚ
  gridWidth : ℕ
  gridHeight : ℕ
  density : ℕ
  freq : ℚ
  amplitude : ℚ
  strokeMin : ℚ
  strokeMax : ℚ
  opacityMin : ℚ
  opacityMax : ℚ
  bias : ℚ
  seed : ℕ
  strokeColor : String
  bgColor : String

/-- Option defaulting, one line per source line 136-157.  `randSeed`
models the `Math.floor(Math.random() * 1e9)` fallback drawn when no
seed is supplied. -/
def resolveOptions (o : Options) (randSeed : ℕ) : Config where
  width := orZero o.width 100
  height := orZero o.height (225 / 4)
  gridWidth := orZeroNat o.gridWidth 160
  gridHeight := orZeroNat o.gridHeight 90
  density := orZeroNat o.density 10
  freq := orZero o.freq 5
  amplitude := orZero o.amplitude 1
  strokeMin := (o.strokeMin).getD (16 / 100)
  strokeMax := (o.strokeMax).getD (26 / 100)
  opacityMin := (o.opacityMin).getD (1 / 2)
  opacityMax := (o.opacityMax).getD 1
  bias := orZero o.bias 0
  seed := (o.seed).getD randSeed
  strokeColor := orEmpty o.strokeColor "#888888"
  bgColor := orEmpty o.backgroundColor "transparent"

/-! ## Contour → path renderer (`contourToPath`, lines 89-102)

A d3 contour is a GeoJSON MultiPolygon: a list of polygons, each a list
of rings, each a list of points.  The emitted path string is modelled as
its sequence of drawing commands (move / line / close); `toFixed3`
models the `x.toFixed(3)` coordinate formatting. -/

/-- One SVG path drawing command, with already transformed coordinates. -/
inductive PathCmd where
  | move (x y : ℚ)
  | line (x y : ℚ)
  | close
deriving DecidableEq

/-- A d3 GeoJSON MultiPolygon `coordinates` array. -/
def Contour : Type := List (List (List (ℚ × ℚ)))

/-- Command emitted for point `pt` at ring index `idx`
(`idx === 0 ? 'M ' : 'L '`, with `x = pt[0]*sx - ox`, `y = pt[1]*sy - oy`). -/
def pointCmd (sx sy ox oy : ℚ) (p : ℕ × (ℚ × ℚ)) : PathCmd :=
  if p.1 = 0 then PathCmd.move (p.2.1 * sx - ox) (p.2.2 * sy - oy)
  else PathCmd.line (p.2.1 * sx - ox) (p.2.2 * sy - oy)

/-- Translation of `contourToPath`'s nested `forEach` loops, accumulating
commands instead of string fragments: every point appends its command,
and every ring appends a closing `Z`. -/
def contourToPathCmds (contour : Contour) (sx sy ox oy : ℚ) : List PathCmd :=
  contour.foldl (fun d poly =>
    poly.foldl (fun d ring =>
      (ring.enum.foldl (fun d p => d ++ [pointCmd sx sy ox oy p]) d)
        ++ [PathCmd.close]) d) []

/-- The command sequence a single ring must produce, as the specification
states it: first point a move, subsequent points lines, one close. -/
def ringCmdsSpec (sx sy ox oy : ℚ) (ring : List (ℚ × ℚ)) : List PathCmd :=
  (match ring with
   | [] => []
   | pt :: rest =>
     PathCmd.move (pt.1 * sx - ox) (pt.2 * sy - oy)
       :: rest.map (fun q => PathCmd.line (q.1 * sx - ox) (q.2 * sy - oy)))
    ++ [PathCmd.close]

/-- Decimal digit character, the digits JavaScript's number-to-string
coercion emits. -/
def natDigitChar (d : ℕ) : Char :=
  match d with
  | 0 => '0' | 1 => '1' | 2 => '2' | 3 => '3' | 4 => '4'
  | 5 => '5' | 6 => '6' | 7 => '7' | 8 => '8' | _ => '9'

/-- Decimal digit string of a natural number (most significant digit
first), modelling JavaScript's integer-to-string coercion. -/
def natDecChars (n : ℕ) : List Char :=
  if n < 10 then [natDigitChar n]
  else natDecChars (n / 10) ++ [natDigitChar (n % 10)]
decreasing_by exact Nat.div_lt_self (by omega) (by omega)

/-- JavaScript decimal rendering of a natural number as a `String`. -/
def natDecString (n : ℕ) : String :=
  String.mk (natDecChars n)

/-- The three fractional digits of a value rounded to thousandths. -/
def dec3Chars (m : ℕ) : List Char :=
  [natDigitChar (m / 100), natDigitChar (m / 10 % 10), natDigitChar (m % 10)]

/-- Model of `x.toFixed(3)` on exact rationals: sign, then the integer
and three zero-padded fractional digits of `|x|` rounded to the nearest
thousandth (ties away from zero), exactly as ECMA's `Number.toFixed`
specifies. -/
def toFixed3 (q : ℚ) : String :=
  (if q < 0 then "-" else "")
    ++ natDecString (⌊|q| * 1000 + 1/2⌋.toNat / 1000)
    ++ "."
    ++ String.mk (dec3Chars (⌊|q| * 1000 + 1/2⌋.toNat % 1000))

/-! ## Document composer (`generateWavelineSvg`, lines 132-227) -/

/-- One rendered contour path with its per-index styling
(lines 211-223). -/
structure RenderedPath where
  d : List PathCmd
  strokeWidth : ℚ
  strokeOpacity : ℚ
  color : String

/-- The assembled SVG document (lines 196-226), as its structured
content: viewport, seed-derived clip identifier, background fill and the
styled contour paths, in order. -/
structure SvgDoc where
  width : ℚ
  height : ℚ
  clipId : String
  bgColor : String
  paths : List RenderedPath

/-- The external `d3.contours()` capability: grid values, grid size and
thresholds in, one contour (multi-polygon) per threshold out. -/
def Extractor : Type :=
  List ℝ → ℕ → ℕ → List ℝ → List Contour

/-- The contour-rendering loop (lines 211-223): index-normalized position
`t = idx / (contourData.length - 1 || 1)`, stroke width interpolated from
`strokeMin` up to `strokeMax`, opacity from `opacityMax` down to
`opacityMin`. -/
def renderPaths (contours : List Contour) (sx sy ox oy sMin sMax oMin oMax : ℚ)
    (color : String) : List RenderedPath :=
  contours.enum.map (fun ic =>
    let t : ℚ := (ic.1 : ℚ) /
      (if (contours.length : ℚ) - 1 = 0 then 1 else (contours.length : ℚ) - 1)
    { d := contourToPathCmds ic.2 sx sy ox oy
      strokeWidth := sMin + (sMax - sMin) * t
      strokeOpacity := oMin + (oMax - oMin) * (1 - t)
      color := color })

/-- The scalar field the composer generates from a defaulted
configuration (line 176). -/
noncomputable def fieldOfConfig (c : Config) : List ℝ :=
  generateField c.gridWidth c.gridHeight (c.freq : ℝ) (c.amplitude : ℝ) c.seed

/-- The threshold list the composer derives from a defaulted
configuration (lines 177-185). -/
noncomputable def thresholdsOfConfig (c : Config) : List ℝ :=
  planThresholds (fieldOfConfig c) c.density (c.bias : ℝ)

/-- Translation of `generateWavelineSvg`: default the options, fail if the
contour-extraction capability is absent, otherwise run the
field → thresholds → contours → styled-paths pipeline and assemble the
document.  `randSeed` models the random fallback seed; `d3` models the
ambient `d3.contours` capability. -/
noncomputable def generateWavelineSvg (options : Options) (randSeed : ℕ)
    (d3 : Option Extractor) : Except String SvgDoc :=
  let c := resolveOptions options randSeed
  match d3 with
  | none => Except.error "d3-contour is required. Load it before waveline-bg.js."
  | some extract =>
    let bleed : ℚ := 1 / 10
    let fullW := c.width * (1 + bleed * 2)
    let fullH := c.height * (1 + bleed * 2)
    let ox := c.width * bleed
    let oy := c.height * bleed
    let sx := fullW / ((c.gridWidth : ℚ) - 1)
    let sy := fullH / ((c.gridHeight : ℚ) - 1)
    let field := fieldOfConfig c
    let levels := thresholdsOfConfig c
    let contours := extract field c.gridWidth c.gridHeight levels
    Except.ok
      { width := c.width
        height := c.height
        clipId := "wlbg-" ++ natDecString (c.seed % 999983)
        bgColor := c.bgColor
        paths := renderPaths contours sx sy ox oy
          c.strokeMin c.strokeMax c.opacityMin c.opacityMax c.strokeColor }

/-- The clip identifier of a generation result, when generation succeeded. -/
def docClipId (r : Except String SvgDoc) : Option String :=
  match r with
  | Except.ok doc => some doc.clipId
  | Except.error _ => none

/-- A trivial contour-extraction capability returning no contours; used
to exercise the composer on concrete inputs. -/
def nilExtractor : Extractor := fun _ _ _ _ => []

/-! ## Properties and claim verification -/

theorem mulberry32Step_fst_lt (s : ℕ) : (mulberry32Step s).1 < 4294967296 := by
  show (let s' := (s + 0x6D2B79F5) % 4294967296
        let t1 := ((s' ^^^ (s' >>> 15)) * (s' ||| 1)) % 4294967296
        let t2 := t1 ^^^ ((t1 + ((t1 ^^^ (t1 >>> 7)) * (t1 ||| 61)) % 4294967296) % 4294967296)
        t2 ^^^ (t2 >>> 14)) < 4294967296
  have h32 : (4294967296 : ℕ) = 2 ^ 32 := by norm_num
  set s' := (s + 0x6D2B79F5) % 4294967296 with hs'
  set t1 := ((s' ^^^ (s' >>> 15)) * (s' ||| 1)) % 4294967296 with ht1
  have h1 : t1 < 2 ^ 32 := by
    rw [ht1, h32]; exact Nat.mod_lt _ (by norm_num)
  have h2 : t1 ^^^ ((t1 + ((t1 ^^^ (t1 >>> 7)) * (t1 ||| 61)) % 4294967296) % 4294967296)
      < 2 ^ 32 := by
    apply Nat.xor_lt_two_pow h1
    rw [h32]; exact Nat.mod_lt _ (by norm_num)
  have h3 : (t1 ^^^ ((t1 + ((t1 ^^^ (t1 >>> 7)) * (t1 ||| 61)) % 4294967296) % 4294967296)) >>> 14
      < 2 ^ 32 := by
    rw [Nat.shiftRight_eq_div_pow]
    exact lt_of_le_of_lt (Nat.div_le_self _ _) h2
  rw [h32]
  exact Nat.xor_lt_two_pow h2 h3

theorem mulberry32Out_lt (seed n : ℕ) : mulberry32Out seed n < 4294967296 :=
  mulberry32Step_fst_lt _

theorem mulberry32State_mod (seed n : ℕ) :
    mulberry32State (seed % 4294967296) n = mulberry32State seed n := by
  induction n with
  | zero => simp [mulberry32State, Nat.mod_mod_of_dvd]
  | succ n ih => simp [mulberry32State, ih]

/-- **C3.** The RNG created from a 32-bit seed implements Mulberry32
(`mulberry32Step` is the literal translation of the closure body, with
32-bit wraparound addition and multiplications): every drawn value lies
in `[0, 1)`, the underlying 32-bit output is bounded, and the output
sequence depends only on the 32-bit residue of the seed and the number
of prior draws. -/
theorem mulberry32_spec (seed n : ℕ) :
    mulberry32Val seed n ∈ Set.Ico (0 : ℝ) 1 ∧
    mulberry32Out seed n < 4294967296 ∧
    mulberry32Out (seed % 4294967296) n = mulberry32Out seed n := by
  refine ⟨⟨?_, ?_⟩, mulberry32Out_lt seed n, ?_⟩
  · exact div_nonneg (Nat.cast_nonneg _) (by norm_num)
  · rw [mulberry32Val, div_lt_one (by norm_num)]
    exact_mod_cast mulberry32Out_lt seed n
  · unfold mulberry32Out
    rw [mulberry32State_mod]

theorem length_range_flatMap_map {α : Type} (f : ℕ → ℕ → α) (gW gH : ℕ) :
    ((List.range gH).flatMap (fun j => (List.range gW).map (f j))).length = gH * gW := by
  rw [List.flatMap_def, List.length_flatten, List.map_map]
  have : (List.map (List.length ∘ fun j => List.map (f j) (List.range gW)) (List.range gH))
      = List.replicate gH gW := by
    rw [show (List.length ∘ fun j => List.map (f j) (List.range gW)) = fun _ => gW by
      funext j; simp]
    rw [List.map_const', List.length_range]
  rw [this, List.sum_replicate, smul_eq_mul]

theorem getD_range_flatMap_map {α : Type} (d : α) (f : ℕ → ℕ → α) (gW : ℕ) :
    ∀ gH j i, j < gH → i < gW →
      ((List.range gH).flatMap (fun j => (List.range gW).map (f j))).getD (j * gW + i) d
        = f j i := by
  intro gH
  induction gH with
  | zero => intro j i hj _; omega
  | succ h ih =>
    intro j i hj hi
    rw [List.range_succ, List.flatMap_append, List.flatMap_singleton]
    rcases Nat.lt_or_ge j h with hjh | hjh
    · have hlen : j * gW + i < ((List.range h).flatMap
          (fun j => (List.range gW).map (f j))).length := by
        rw [length_range_flatMap_map]
        have : j * gW + i < (j + 1) * gW := by
          rw [Nat.succ_mul]; omega
        exact lt_of_lt_of_le this (Nat.mul_le_mul_right gW hjh)
      rw [List.getD_eq_getElem?_getD, List.getElem?_append_left hlen,
        ← List.getD_eq_getElem?_getD]
      exact ih j i hjh hi
    · have hj' : j = h := by omega
      subst hj'
      have hlen : ((List.range j).flatMap
          (fun j => (List.range gW).map (f j))).length = j * gW :=
        length_range_flatMap_map f gW j
      rw [List.getD_eq_getElem?_getD, List.getElem?_append_right (by omega), hlen]
      have : j * gW + i - j * gW = i := by omega
      rw [this, List.getElem?_map, List.getElem?_range hi]
      rfl

theorem generateField_eq (gridW gridH : ℕ) (freq amplitude : ℝ) (seed : ℕ) :
    generateField gridW gridH freq amplitude seed =
      (List.range gridH).flatMap (fun j =>
        (List.range gridW).map (fun i => fieldCell gridW gridH freq amplitude seed i j)) := by
  simp only [generateField, fieldCell]

theorem phaseOf_mem_Ico (seed k : ℕ) : phaseOf seed k ∈ Set.Ico (0 : ℝ) (2 * Real.pi) := by
  have hlt : mulberry32Val seed k < 1 := by
    rw [mulberry32Val, div_lt_one (by norm_num)]
    exact_mod_cast mulberry32Out_lt seed k
  have hnn : (0 : ℝ) ≤ mulberry32Val seed k :=
    div_nonneg (Nat.cast_nonneg _) (by norm_num)
  constructor
  · unfold phaseOf
    have := Real.pi_pos
    nlinarith
  · unfold phaseOf
    have := Real.pi_pos
    nlinarith

theorem phaseOf_zero_eq (seed : ℕ) :
    ((mulberry32Step (seed % 4294967296)).1 : ℝ) / 4294967296 * Real.pi * 2
      = phaseOf seed 0 := rfl

theorem phaseOf_one_eq (seed : ℕ) :
    ((mulberry32Step (mulberry32Step (seed % 4294967296)).2).1 : ℝ) / 4294967296
        * Real.pi * 2 = phaseOf seed 1 := rfl

theorem phaseOf_two_eq (seed : ℕ) :
    ((mulberry32Step (mulberry32Step (mulberry32Step (seed % 4294967296)).2).2).1 : ℝ)
        / 4294967296 * Real.pi * 2 = phaseOf seed 2 := rfl

/-- **C1.** For grids of size at least 2×2, `generateField` draws exactly
three phases (the first three draws of the seeded stream, each in
`[0, 2π)`), returns a row-major list of length `gridW × gridH`, and the
cell value at `(i, j)` is the claimed four-sine superposition scaled by
`amplitude`. -/
theorem generateField_spec (gW gH : ℕ) (freq amp : ℝ) (seed : ℕ)
    (hW : 2 ≤ gW) (hH : 2 ≤ gH) :
    (generateField gW gH freq amp seed).length = gW * gH ∧
    (∀ k, k < 3 → phaseOf seed k ∈ Set.Ico (0 : ℝ) (2 * Real.pi)) ∧
    ∀ i j, i < gW → j < gH →
      (generateField gW gH freq amp seed).getD (j * gW + i) 0 =
        amp * ( Real.sin (2 * Real.pi * (freq / 10) * ((i : ℝ) / gW - 0.5) + phaseOf seed 0)
              + Real.sin (2 * Real.pi * (0.9 * (freq / 10)) * ((j : ℝ) / gH - 0.5)
                  + phaseOf seed 1)
              + 0.6 * Real.sin (2 * Real.pi * (0.7 * (freq / 10)) *
                  (((i : ℝ) / gW - 0.5) + ((j : ℝ) / gH - 0.5)) + phaseOf seed 2)
              + 0.4 * Real.sin (2 * Real.pi * (0.5 * (freq / 10)) *
                  (((i : ℝ) / gW - 0.5) - ((j : ℝ) / gH - 0.5)) - phaseOf seed 1)) := by
  refine ⟨?_, fun k _ => phaseOf_mem_Ico seed k, ?_⟩
  · rw [generateField_eq, length_range_flatMap_map]
    exact mul_comm gH gW
  · intro i j hi hj
    rw [generateField_eq,
      getD_range_flatMap_map (0 : ℝ) (fun j i => fieldCell gW gH freq amp seed i j) gW gH j i hj hi]
    show fieldCell gW gH freq amp seed i j = _
    rw [fieldCell]
    rw [phaseOf_zero_eq, phaseOf_one_eq, phaseOf_two_eq]
    ring_nf

theorem applyBias_lt_applyBias (bias : ℝ) {u v : ℝ} (hu0 : 0 < u) (huv : u < v) (hv1 : v < 1) :
    applyBias u bias < applyBias v bias := by
  unfold applyBias
  rcases lt_trichotomy bias 0 with hb | hb | hb
  · rw [if_neg (ne_of_lt hb), if_neg (not_lt_of_lt hb),
      if_neg (ne_of_lt hb), if_neg (not_lt_of_lt hb)]
    have hp : (0 : ℝ) < 1 - bias := by linarith
    have h1v : (0 : ℝ) ≤ 1 - v := by linarith
    have : (1 - v) ^ (1 - bias) < (1 - u) ^ (1 - bias) :=
      Real.rpow_lt_rpow h1v (by linarith) hp
    linarith
  · subst hb
    rw [if_pos rfl, if_pos rfl]
    exact huv
  · rw [if_neg (ne_of_gt hb), if_pos hb, if_neg (ne_of_gt hb), if_pos hb]
    exact Real.rpow_lt_rpow (le_of_lt hu0) huv (by linarith)

theorem applyBias_pos {u : ℝ} (bias : ℝ) (hu0 : 0 < u) (hu1 : u < 1) :
    0 < applyBias u bias := by
  unfold applyBias
  rcases lt_trichotomy bias 0 with hb | hb | hb
  · rw [if_neg (ne_of_lt hb), if_neg (not_lt_of_lt hb)]
    have : (1 - u) ^ (1 - bias) < 1 :=
      Real.rpow_lt_one (by linarith) (by linarith) (by linarith)
    linarith
  · subst hb; rw [if_pos rfl]; exact hu0
  · rw [if_neg (ne_of_gt hb), if_pos hb]
    exact Real.rpow_pos_of_pos hu0 _

theorem levelsFor_u_mem (density k : ℕ) (hk : k < density) :
    0 < ((k : ℝ) + 1) / ((density : ℝ) + 1) ∧
    ((k : ℝ) + 1) / ((density : ℝ) + 1) < 1 := by
  have hd : (0 : ℝ) < (density : ℝ) + 1 := by positivity
  constructor
  · positivity
  · rw [div_lt_one hd]
    have : (k : ℝ) + 1 < (density : ℝ) + 1 := by
      have : (k : ℝ) < density := by exact_mod_cast hk
      linarith
    linarith

theorem levelsFor_strict_mono {minV maxV : ℝ} (hmm : minV < maxV) {density : ℕ}
    (bias : ℝ) {a b : ℕ} (ha : a < density) (hab : a < b) (hb : b < density) :
    minV + applyBias (((a : ℝ) + 1) / ((density : ℝ) + 1)) bias * (maxV - minV) <
    minV + applyBias (((b : ℝ) + 1) / ((density : ℝ) + 1)) bias * (maxV - minV) := by
  have hua := levelsFor_u_mem density a ha
  have hub := levelsFor_u_mem density b hb
  have hd : (0 : ℝ) < (density : ℝ) + 1 := by positivity
  have huv : ((a : ℝ) + 1) / ((density : ℝ) + 1) < ((b : ℝ) + 1) / ((density : ℝ) + 1) := by
    have : (a : ℝ) + 1 < (b : ℝ) + 1 := by
      have : (a : ℝ) < b := by exact_mod_cast hab
      linarith
    exact div_lt_div_of_pos_right this hd
  have hmono := applyBias_lt_applyBias bias hua.1 huv hub.2
  have hrange : (0 : ℝ) < maxV - minV := by linarith
  have := mul_lt_mul_of_pos_right hmono hrange
  linarith

theorem applyBias_lt_one {u : ℝ} (bias : ℝ) (hu0 : 0 < u) (hu1 : u < 1) :
    applyBias u bias < 1 := by
  unfold applyBias
  rcases lt_trichotomy bias 0 with hb | hb | hb
  · rw [if_neg (ne_of_lt hb), if_neg (not_lt_of_lt hb)]
    have : (0 : ℝ) < (1 - u) ^ (1 - bias) :=
      Real.rpow_pos_of_pos (by linarith) _
    linarith
  · subst hb; rw [if_pos rfl]; exact hu1
  · rw [if_neg (ne_of_gt hb), if_pos hb]
    exact Real.rpow_lt_one (le_of_lt hu0) hu1 (by linarith)

/-- **C2.** Whenever the field's minimum is strictly below its maximum,
for any density ≥ 1 and bias in `[-1, 1]`, the planned threshold list is
strictly increasing and every threshold lies strictly between the
field's minimum and maximum. -/
theorem planThresholds_spec (field : List ℝ) (density : ℕ) (bias : ℝ)
    (hmm : listMin field < listMax field) (hd : 1 ≤ density)
    (hb1 : -1 ≤ bias) (hb2 : bias ≤ 1) :
    List.Pairwise (· < ·) (planThresholds field density bias) ∧
    ∀ x ∈ planThresholds field density bias,
      listMin field < x ∧ x < listMax field := by
  constructor
  · rw [planThresholds, levelsFor, List.pairwise_iff_getElem]
    intro a b h1 h2 h3
    simp only [List.getElem_map, List.getElem_range]
    simp only [List.length_map, List.length_range] at h1 h2
    exact levelsFor_strict_mono hmm bias h1 h3 h2
  · intro x hx
    rw [planThresholds, levelsFor, List.mem_map] at hx
    obtain ⟨k, hk, hkx⟩ := hx
    rw [List.mem_range] at hk
    obtain ⟨hu0, hu1⟩ := levelsFor_u_mem density k hk
    have hpos := applyBias_pos bias hu0 hu1
    have hlt1 := applyBias_lt_one bias hu0 hu1
    have hrange : (0 : ℝ) < listMax field - listMin field := by linarith
    constructor
    · rw [← hkx]
      nlinarith
    · rw [← hkx]
      nlinarith

theorem applyBias_eq_biasCurveSpec (u bias : ℝ) : applyBias u bias = biasCurveSpec u bias := rfl

/-- **C5.** The planner produces exactly `density` thresholds, and the
`k`-th one (0-indexed `k`, the claim's `k+1`) equals
`min + B((k+1)/(density+1)) * (max - min)` with `B` the specification's
bias curve. -/
theorem planThresholds_values (field : List ℝ) (density : ℕ) (bias : ℝ) :
    (planThresholds field density bias).length = density ∧
    ∀ k, k < density →
      (planThresholds field density bias).getD k 0 =
        listMin field
          + biasCurveSpec (((k : ℝ) + 1) / ((density : ℝ) + 1)) bias
            * (listMax field - listMin field) := by
  constructor
  · rw [planThresholds, levelsFor, List.length_map, List.length_range]
  · intro k hk
    rw [planThresholds, levelsFor, List.getD_eq_getElem?_getD,
      List.getElem?_map, List.getElem?_range hk]
    simp [applyBias_eq_biasCurveSpec]

/-- **C10.** Option defaulting is asymmetric: for `width`, `height`,
`gridWidth`, `gridHeight`, `density`, `freq`, `amplitude`, `bias`,
`strokeColor` and `backgroundColor` an explicit zero (or empty string)
is treated as absent and silently replaced by the documented default,
while an explicit `0` supplied for `strokeMin`, `strokeMax`,
`opacityMin`, `opacityMax` or `seed` is honored. -/
theorem resolveOptions_asymmetric (o : Options) (r : ℕ) :
    (resolveOptions { o with width := some 0 } r).width = 100 ∧
    (resolveOptions { o with height := some 0 } r).height = 225 / 4 ∧
    (resolveOptions { o with gridWidth := some 0 } r).gridWidth = 160 ∧
    (resolveOptions { o with gridHeight := some 0 } r).gridHeight = 90 ∧
    (resolveOptions { o with density := some 0 } r).density = 10 ∧
    (resolveOptions { o with freq := some 0 } r).freq = 5 ∧
    (resolveOptions { o with amplitude := some 0 } r).amplitude = 1 ∧
    (resolveOptions { o with bias := some 0 } r).bias = 0 ∧
    (resolveOptions { o with strokeColor := some "" } r).strokeColor = "#888888" ∧
    (resolveOptions { o with backgroundColor := some "" } r).bgColor = "transparent" ∧
    (resolveOptions { o with strokeMin := some 0 } r).strokeMin = 0 ∧
    (resolveOptions { o with strokeMax := some 0 } r).strokeMax = 0 ∧
    (resolveOptions { o with opacityMin := some 0 } r).opacityMin = 0 ∧
    (resolveOptions { o with opacityMax := some 0 } r).opacityMax = 0 ∧
    (resolveOptions { o with seed := some 0 } r).seed = 0 := by
  refine ⟨rfl, rfl, rfl, rfl, rfl, rfl, rfl, rfl, rfl, rfl, rfl, rfl, rfl, rfl, rfl⟩

theorem foldl_append_singleton {α β : Type} (g : β → α) :
    ∀ (l : List β) (acc : List α),
      l.foldl (fun d x => d ++ [g x]) acc = acc ++ l.map g := by
  intro l
  induction l with
  | nil => intro acc; simp
  | cons x xs ih => intro acc; simp [ih, List.append_assoc]

theorem foldl_append_block {α β : Type} (g : β → List α) :
    ∀ (l : List β) (acc : List α),
      l.foldl (fun d x => d ++ g x) acc = acc ++ l.flatMap g := by
  intro l
  induction l with
  | nil => intro acc; simp
  | cons x xs ih => intro acc; simp [ih, List.append_assoc]

theorem enumFrom_map_pointCmd (sx sy ox oy : ℚ) :
    ∀ (rest : List (ℚ × ℚ)) (k : ℕ),
      (rest.enumFrom (k + 1)).map (pointCmd sx sy ox oy)
        = rest.map (fun q => PathCmd.line (q.1 * sx - ox) (q.2 * sy - oy)) := by
  intro rest
  induction rest with
  | nil => intro k; simp
  | cons q qs ih =>
    intro k
    rw [List.enumFrom_cons, List.map_cons, List.map_cons, ih (k + 1)]
    rw [pointCmd, if_neg (by omega)]

theorem enum_map_pointCmd (sx sy ox oy : ℚ) (ring : List (ℚ × ℚ)) :
    ring.enum.map (pointCmd sx sy ox oy) ++ [PathCmd.close]
      = ringCmdsSpec sx sy ox oy ring := by
  cases ring with
  | nil => simp [List.enum, ringCmdsSpec]
  | cons pt rest =>
    rw [ringCmdsSpec]
    have : (pt :: rest).enum = (0, pt) :: rest.enumFrom 1 := rfl
    rw [this, List.map_cons, enumFrom_map_pointCmd sx sy ox oy rest 0]
    rw [pointCmd, if_pos rfl]

theorem contourToPathCmds_eq (contour : Contour) (sx sy ox oy : ℚ) :
    contourToPathCmds contour sx sy ox oy
      = contour.flatMap (fun poly => poly.flatMap (ringCmdsSpec sx sy ox oy)) := by
  rw [contourToPathCmds]
  have hring : ∀ (poly : List (List (ℚ × ℚ))) (acc : List PathCmd),
      poly.foldl (fun d ring =>
        (ring.enum.foldl (fun d p => d ++ [pointCmd sx sy ox oy p]) d)
          ++ [PathCmd.close]) acc
        = acc ++ poly.flatMap (ringCmdsSpec sx sy ox oy) := by
    intro poly
    induction poly with
    | nil => intro acc; simp
    | cons ring rings ih =>
      intro acc
      rw [List.foldl_cons, ih, foldl_append_singleton]
      rw [List.append_assoc, List.flatMap_cons, ← enum_map_pointCmd]
      simp [List.append_assoc]
  have houter : ∀ (c : List (List (List (ℚ × ℚ)))) (acc : List PathCmd),
      c.foldl (fun d poly =>
        poly.foldl (fun d ring =>
          (ring.enum.foldl (fun d p => d ++ [pointCmd sx sy ox oy p]) d)
            ++ [PathCmd.close]) d) acc
        = acc ++ c.flatMap (fun poly => poly.flatMap (ringCmdsSpec sx sy ox oy)) := by
    intro c
    induction c with
    | nil => intro acc; simp
    | cons poly polys ih =>
      intro acc
      rw [List.foldl_cons, ih, hring, List.flatMap_cons, List.append_assoc]
  exact houter contour []

theorem digitChar_ne_dot (n : ℕ) : natDigitChar n ≠ '.' := by
  unfold natDigitChar
  split <;> decide

theorem count_close_ringCmdsSpec (sx sy ox oy : ℚ) (ring : List (ℚ × ℚ)) :
    (ringCmdsSpec sx sy ox oy ring).count PathCmd.close = 1 := by
  cases ring with
  | nil => rfl
  | cons pt rest =>
    rw [ringCmdsSpec, List.count_append]
    have h1 : (PathCmd.move (pt.1 * sx - ox) (pt.2 * sy - oy)
        :: rest.map (fun q => PathCmd.line (q.1 * sx - ox) (q.2 * sy - oy))).count
          PathCmd.close = 0 := by
      rw [List.count_eq_zero]
      intro hmem
      rcases List.mem_cons.mp hmem with h | h
      · exact absurd h.symm (by simp)
      · obtain ⟨q, _, hq⟩ := List.mem_map.mp h
        exact absurd hq (by simp)
    rw [h1]
    rfl

theorem count_close_poly (sx sy ox oy : ℚ) (poly : List (List (ℚ × ℚ))) :
    (poly.flatMap (ringCmdsSpec sx sy ox oy)).count PathCmd.close = poly.length := by
  induction poly with
  | nil => rfl
  | cons ring rings ih =>
    rw [List.flatMap_cons, List.count_append, count_close_ringCmdsSpec, ih,
      List.length_cons]
    omega

theorem count_close_contour (sx sy ox oy : ℚ) (contour : Contour) :
    (contour.flatMap (fun poly => poly.flatMap (ringCmdsSpec sx sy ox oy))).count
        PathCmd.close
      = (contour.map (fun poly => poly.length)).sum := by
  induction contour with
  | nil => rfl
  | cons poly polys ih =>
    rw [List.flatMap_cons, List.count_append, count_close_poly, ih,
      List.map_cons, List.sum_cons]

theorem toFixed3_digits (q : ℚ) :
    ∃ p s : String, toFixed3 q = p ++ "." ++ s ∧ s.length = 3 ∧ '.' ∉ s.data := by
  refine ⟨(if q < 0 then "-" else "")
      ++ natDecString (⌊|q| * 1000 + 1/2⌋.toNat / 1000),
    String.mk (dec3Chars (⌊|q| * 1000 + 1/2⌋.toNat % 1000)), ?_, rfl, ?_⟩
  · rw [toFixed3]
  · intro hmem
    have : ('.' : Char) ∈ dec3Chars (⌊|q| * 1000 + 1/2⌋.toNat % 1000) := hmem
    simp only [dec3Chars, List.mem_cons, List.not_mem_nil, or_false] at this
    rcases this with h | h | h <;> exact digitChar_ne_dot _ h.symm

/-- **C8.** The renderer maps each ring point `(x, y)` to
`(x·sx − ox, y·sy − oy)`, emits the first point of each ring as a move,
every later point as a line, and exactly one close per ring (so the
close count equals the total ring count); each coordinate is formatted
by `toFixed3` with exactly three digits after the final decimal point. -/
theorem contourToPath_spec (contour : Contour) (sx sy ox oy : ℚ) :
    contourToPathCmds contour sx sy ox oy
      = contour.flatMap (fun poly => poly.flatMap (ringCmdsSpec sx sy ox oy)) ∧
    (contourToPathCmds contour sx sy ox oy).count PathCmd.close
      = (contour.map (fun poly => poly.length)).sum ∧
    ∀ q : ℚ, ∃ p s : String, toFixed3 q = p ++ "." ++ s ∧ s.length = 3 ∧ '.' ∉ s.data := by
  refine ⟨contourToPathCmds_eq contour sx sy ox oy, ?_, toFixed3_digits⟩
  rw [contourToPathCmds_eq]
  exact count_close_contour sx sy ox oy contour

theorem natDigitChar_inj_aux :
    ∀ a ∈ Finset.range 10, ∀ b ∈ Finset.range 10,
      natDigitChar a = natDigitChar b → a = b := by decide

theorem natDigitChar_inj (a b : ℕ) (ha : a < 10) (hb : b < 10)
    (h : natDigitChar a = natDigitChar b) : a = b :=
  natDigitChar_inj_aux a (Finset.mem_range.mpr ha) b (Finset.mem_range.mpr hb) h

theorem natDecChars_ne_nil (n : ℕ) : natDecChars n ≠ [] := by
  rw [natDecChars]
  split <;> simp

theorem natDecChars_lt10 (n : ℕ) (h : n < 10) :
    natDecChars n = [natDigitChar n] := by
  rw [natDecChars, if_pos h]

theorem natDecChars_ge10 (n : ℕ) (h : ¬ n < 10) :
    natDecChars n = natDecChars (n / 10) ++ [natDigitChar (n % 10)] := by
  rw [natDecChars]
  rw [if_neg h]

theorem natDecChars_inj : ∀ m n : ℕ, natDecChars m = natDecChars n → m = n := by
  intro m
  induction m using Nat.strong_induction_on with
  | _ m ih =>
    intro n h
    by_cases hm : m < 10 <;> by_cases hn : n < 10
    · rw [natDecChars_lt10 m hm, natDecChars_lt10 n hn] at h
      exact natDigitChar_inj m n hm hn (List.cons.inj h).1
    · rw [natDecChars_lt10 m hm, natDecChars_ge10 n hn] at h
      have hlen := congrArg List.length h
      rw [List.length_cons, List.length_nil, List.length_append, List.length_cons,
        List.length_nil] at hlen
      have : (natDecChars (n / 10)).length = 0 := by omega
      exact absurd (List.length_eq_zero.mp this) (natDecChars_ne_nil (n / 10))
    · rw [natDecChars_ge10 m hm, natDecChars_lt10 n hn] at h
      have hlen := congrArg List.length h
      rw [List.length_cons, List.length_nil, List.length_append, List.length_cons,
        List.length_nil] at hlen
      have : (natDecChars (m / 10)).length = 0 := by omega
      exact absurd (List.length_eq_zero.mp this) (natDecChars_ne_nil (m / 10))
    · rw [natDecChars_ge10 m hm, natDecChars_ge10 n hn] at h
      have hrev := congrArg List.reverse h
      rw [List.reverse_append, List.reverse_append] at hrev
      simp only [List.reverse_cons, List.reverse_nil, List.nil_append,
        List.singleton_append] at hrev
      have hd := (List.cons.inj hrev).1
      have ht := (List.cons.inj hrev).2
      have hdiv : m / 10 = n / 10 :=
        ih (m / 10) (Nat.div_lt_self (by omega) (by omega)) (n / 10)
          (List.reverse_inj.mp ht)
      have hmod : m % 10 = n % 10 :=
        natDigitChar_inj _ _ (Nat.mod_lt _ (by omega)) (Nat.mod_lt _ (by omega)) hd
      omega

theorem natDecString_inj (m n : ℕ) (h : natDecString m = natDecString n) : m = n := by
  rw [natDecString, natDecString] at h
  injection h with h'
  exact natDecChars_inj m n h'

/-- **C6.** When the contour-extraction capability is unavailable,
`generateWavelineSvg` fails with the descriptive error and produces no
document: the result carries no partial output. -/
theorem generateWavelineSvg_noD3 (o : Options) (r : ℕ) :
    generateWavelineSvg o r none
      = Except.error "d3-contour is required. Load it before waveline-bg.js." := rfl

/-- **C7.** The contour at index `idx` of `n ≥ 1` rendered contours is
styled with `t = idx / (n - 1)` (which is `0` when `n = 1`): stroke
width `strokeMin + (strokeMax - strokeMin)·t` and stroke opacity
starting at `opacityMax` for `t = 0` and decreasing linearly to
`opacityMin` at `t = 1`. -/
theorem renderPaths_styling (contours : List Contour)
    (sx sy ox oy sMin sMax oMin oMax : ℚ) (color : String) (idx : ℕ)
    (hn : 1 ≤ contours.length) (hidx : idx < contours.length) :
    ((renderPaths contours sx sy ox oy sMin sMax oMin oMax color).getD idx
        ⟨[], 0, 0, ""⟩).strokeWidth
      = sMin + (sMax - sMin) * ((idx : ℚ) / ((contours.length : ℚ) - 1)) ∧
    ((renderPaths contours sx sy ox oy sMin sMax oMin oMax color).getD idx
        ⟨[], 0, 0, ""⟩).strokeOpacity
      = oMax - (oMax - oMin) * ((idx : ℚ) / ((contours.length : ℚ) - 1)) := by
  rw [renderPaths, List.getD_eq_getElem?_getD, List.getElem?_map, List.getElem?_enum,
    List.getElem?_eq_getElem hidx]
  simp only [Option.map_some', Option.getD_some]
  by_cases h1 : (contours.length : ℚ) - 1 = 0
  · have hlen1 : contours.length = 1 := by
      have : (contours.length : ℚ) = 1 := by linarith
      exact_mod_cast this
    have hidx0 : idx = 0 := by omega
    subst hidx0
    rw [if_pos h1, h1]
    norm_num
  · rw [if_neg h1]
    constructor
    · rfl
    · show oMin + (oMax - oMin) * (1 - (idx : ℚ) / ((contours.length : ℚ) - 1)) = _
      field_simp
      ring

theorem natDecString_zero : natDecString 0 = "0" := by
  rw [natDecString, natDecChars_lt10 0 (by norm_num)]
  rfl

/-- **C4, counterexample.** The clip identifier is the seed reduced
modulo 999983, so the two distinct 32-bit seeds 0 and 999983 produce the
same identifier `wlbg-0`: identifiers are not distinct for every pair of
distinct seeds. -/
theorem clipId_collision :
    (0 : ℕ) ≠ 999983 ∧ (999983 : ℕ) < 4294967296 ∧
    docClipId (generateWavelineSvg { seed := some 0 } 0 (some nilExtractor))
      = some "wlbg-0" ∧
    docClipId (generateWavelineSvg { seed := some 999983 } 0 (some nilExtractor))
      = some "wlbg-0" := by
  refine ⟨by omega, by omega, ?_, ?_⟩
  · show some ("wlbg-" ++ natDecString ((Option.getD (some 0) 0) % 999983)) = _
    rw [Option.getD_some, Nat.zero_mod, natDecString_zero]
    rfl
  · show some ("wlbg-" ++ natDecString ((Option.getD (some 999983) 0) % 999983)) = _
    rw [Option.getD_some, Nat.mod_self, natDecString_zero]
    rfl

/-- **C4, amended.** The clip identifier is derived deterministically
from the seed alone (`wlbg-` followed by `seed % 999983` in decimal),
and two generated documents carry distinct clip identifiers whenever
their seeds are incongruent modulo 999983. -/
theorem clipId_deterministic_distinct (s1 s2 : ℕ) (o1 o2 : Options) (r1 r2 : ℕ)
    (e1 e2 : Extractor) (h1 : o1.seed = some s1) (h2 : o2.seed = some s2)
    (hmod : s1 % 999983 ≠ s2 % 999983) :
    docClipId (generateWavelineSvg o1 r1 (some e1))
      = some ("wlbg-" ++ natDecString (s1 % 999983)) ∧
    docClipId (generateWavelineSvg o2 r2 (some e2))
      = some ("wlbg-" ++ natDecString (s2 % 999983)) ∧
    docClipId (generateWavelineSvg o1 r1 (some e1))
      ≠ docClipId (generateWavelineSvg o2 r2 (some e2)) := by
  have hc1 : docClipId (generateWavelineSvg o1 r1 (some e1))
      = some ("wlbg-" ++ natDecString (s1 % 999983)) := by
    show some ("wlbg-" ++ natDecString ((Option.getD o1.seed r1) % 999983)) = _
    rw [h1, Option.getD_some]
  have hc2 : docClipId (generateWavelineSvg o2 r2 (some e2))
      = some ("wlbg-" ++ natDecString (s2 % 999983)) := by
    show some ("wlbg-" ++ natDecString ((Option.getD o2.seed r2) % 999983)) = _
    rw [h2, Option.getD_some]
  refine ⟨hc1, hc2, ?_⟩
  rw [hc1, hc2]
  intro heq
  have hstr : "wlbg-" ++ natDecString (s1 % 999983)
      = "wlbg-" ++ natDecString (s2 % 999983) := Option.some.inj heq
  have hdata := congrArg String.data hstr
  rw [String.data_append, String.data_append] at hdata
  have hfrag := List.append_cancel_left hdata
  have : natDecString (s1 % 999983) = natDecString (s2 % 999983) :=
    congrArg String.mk hfrag
  exact hmod (natDecString_inj _ _ this)

/-- **C9.** With the seed fixed and the terrain parameters (grid sizes,
frequency, amplitude, density, bias) equal, two generation runs —
whatever their presentation options (stroke colour/width/opacity bounds,
background) and their random fallback seeds — produce the identical
scalar field and the identical threshold list. -/
theorem presentation_independence (o1 o2 : Options) (r1 r2 s : ℕ)
    (hgw : o1.gridWidth = o2.gridWidth) (hgh : o1.gridHeight = o2.gridHeight)
    (hde : o1.density = o2.density) (hfr : o1.freq = o2.freq)
    (ham : o1.amplitude = o2.amplitude) (hbi : o1.bias = o2.bias)
    (hs1 : o1.seed = some s) (hs2 : o2.seed = some s) :
    fieldOfConfig (resolveOptions o1 r1) = fieldOfConfig (resolveOptions o2 r2) ∧
    thresholdsOfConfig (resolveOptions o1 r1)
      = thresholdsOfConfig (resolveOptions o2 r2) := by
  have hcfg : (resolveOptions o1 r1).gridWidth = (resolveOptions o2 r2).gridWidth ∧
      (resolveOptions o1 r1).gridHeight = (resolveOptions o2 r2).gridHeight ∧
      (resolveOptions o1 r1).density = (resolveOptions o2 r2).density ∧
      (resolveOptions o1 r1).freq = (resolveOptions o2 r2).freq ∧
      (resolveOptions o1 r1).amplitude = (resolveOptions o2 r2).amplitude ∧
      (resolveOptions o1 r1).bias = (resolveOptions o2 r2).bias ∧
      (resolveOptions o1 r1).seed = (resolveOptions o2 r2).seed := by
    refine ⟨?_, ?_, ?_, ?_, ?_, ?_, ?_⟩ <;>
      simp [resolveOptions, hgw, hgh, hde, hfr, ham, hbi, hs1, hs2]
  obtain ⟨h1, h2, h3, h4, h5, h6, h7⟩ := hcfg
  have hfield : fieldOfConfig (resolveOptions o1 r1)
      = fieldOfConfig (resolveOptions o2 r2) := by
    rw [fieldOfConfig, fieldOfConfig, h1, h2, h4, h5, h7]
  exact ⟨hfield, by rw [thresholdsOfConfig, thresholdsOfConfig, hfield, h3, h6]⟩

/-! ## Witnesses: the hypotheses of the claim theorems are satisfiable
at concrete inputs. -/

theorem generateField_spec_witness :
    (2 ≤ 2 ∧ 2 ≤ 2) ∧ (generateField 2 2 1 1 0).length = 2 * 2 :=
  ⟨⟨by norm_num, by norm_num⟩,
    (generateField_spec 2 2 1 1 0 (by norm_num) (by norm_num)).1⟩

theorem planThresholds_spec_witness :
    listMin [(0 : ℝ), 1] < listMax [(0 : ℝ), 1] ∧
    List.Pairwise (· < ·) (planThresholds [(0 : ℝ), 1] 2 0) := by
  have hmm : listMin [(0 : ℝ), 1] < listMax [(0 : ℝ), 1] := by
    norm_num [listMin, listMax]
  exact ⟨hmm, (planThresholds_spec [(0 : ℝ), 1] 2 0 hmm (by norm_num)
    (by norm_num) (by norm_num)).1⟩

theorem clipId_deterministic_distinct_witness :
    (0 : ℕ) % 999983 ≠ 1 % 999983 ∧
    docClipId (generateWavelineSvg { seed := some 0 } 0 (some nilExtractor))
      ≠ docClipId (generateWavelineSvg { seed := some 1 } 0 (some nilExtractor)) :=
  ⟨by omega, (clipId_deterministic_distinct 0 1 { seed := some 0 } { seed := some 1 }
      0 0 nilExtractor nilExtractor rfl rfl (by omega)).2.2⟩

theorem planThresholds_values_witness :
    0 < 1 ∧ (planThresholds [(0 : ℝ), 1] 1 0).getD 0 0
      = listMin [(0 : ℝ), 1]
        + biasCurveSpec ((((0 : ℕ) : ℝ) + 1) / (((1 : ℕ) : ℝ) + 1)) 0
          * (listMax [(0 : ℝ), 1] - listMin [(0 : ℝ), 1]) :=
  ⟨by norm_num, (planThresholds_values [(0 : ℝ), 1] 1 0).2 0 (by norm_num)⟩

theorem renderPaths_styling_witness :
    (1 ≤ ([([] : Contour)]).length ∧ 0 < ([([] : Contour)]).length) ∧
    ((renderPaths [([] : Contour)] 0 0 0 0 1 2 3 4 "c").getD 0 ⟨[], 0, 0, ""⟩).strokeWidth
      = 1 + (2 - 1) * (((0 : ℕ) : ℚ) / ((([([] : Contour)]).length : ℚ) - 1)) :=
  ⟨⟨by norm_num, by norm_num⟩,
    (renderPaths_styling [([] : Contour)] 0 0 0 0 1 2 3 4 "c" 0
      (by norm_num) (by norm_num)).1⟩

theorem presentation_independence_witness :
    ({ strokeColor := some "#ff0000", seed := some 7 } : Options).seed = some 7 ∧
    fieldOfConfig (resolveOptions { strokeColor := some "#ff0000", seed := some 7 } 0)
      = fieldOfConfig (resolveOptions { seed := some 7 } 1) :=
  ⟨rfl, (presentation_independence { strokeColor := some "#ff0000", seed := some 7 }
      { seed := some 7 } 0 1 7 rfl rfl rfl rfl rfl rfl rfl rfl).1⟩
